import Mathlib

/-!
# Verification of the scrape-enrich-persist pipeline (scrapperpro-fr)

Shallow embedding of `src/app/actions.ts` (the job orchestrator, image
materializer, record assembler and bulk orchestrator) together with the
extraction flow (`extract-property-info`).  Stateful effects (history
writes) are made explicit as returned lists; the asynchronous environment
(HTTP responses, AI model outputs, clock values) is passed in as explicit
function arguments, so every definition is executable.

The platform URL library (`new URL(input)` / `new URL(input, base)`) is
embedded as `urlParse` / `urlResolve` below: a WHATWG-style parser for the
http/https special schemes (flexible slashes after the scheme, lower-cased
scheme and host, `\` treated as `/`, dot-segment removal, path
normalisation in `href`) plus opaque handling of other schemes.
Percent-encoding and port normalisation are outside the model's scope; no
claim depends on them.
-/

namespace ScrapperPro

/-! ## JavaScript string primitives, embedded on `List Char` -/

/-- Embeds `String.prototype.startsWith`: `startsWithL l pre` is true iff
`pre` is an initial segment of `l`. -/
def startsWithL : List Char → List Char → Bool
  | _, [] => true
  | [], _ :: _ => false
  | c :: cs, d :: ds => c = d && startsWithL cs ds

/-- String form of `s.startsWith(p)`. -/
def strStarts (s p : String) : Bool := startsWithL s.data p.data

/-- Splits a character list at every character satisfying `sep`
(JavaScript `split` semantics: empty segments are kept, the result is
never empty). -/
def splitCharsBy (sep : Char → Bool) : List Char → List (List Char)
  | [] => [[]]
  | c :: cs =>
    if sep c then [] :: splitCharsBy sep cs
    else
      match splitCharsBy sep cs with
      | [] => [[c]]
      | seg :: rest => (c :: seg) :: rest

/-- String form of `s.split(sep)` for a single-character separator. -/
def splitStr (sep : Char) (s : String) : List String :=
  (splitCharsBy (fun c => c = sep) s.data).map String.mk

/-- Embeds `s.trim()`: strip leading and trailing whitespace. -/
def jsTrim (s : String) : String :=
  String.mk (((s.data.dropWhile Char.isWhitespace).reverse.dropWhile
    Char.isWhitespace).reverse)

/-- Embeds `s.toLowerCase()` restricted to ASCII, as used on schemes/hosts. -/
def lowerStr (s : String) : String := String.mk (s.data.map Char.toLower)

/-- JavaScript `a || b` on an optional string field: a missing value or
an empty string falls through to the default. -/
def jsOr (o : Option String) (d : String) : String :=
  match o with
  | some s => if s = "" then d else s
  | none => d

/-! ## The URL model (embedding of the platform `URL` class) -/

/-- A parsed URL.  For the special schemes `http`/`https` the host and
path segments are populated; for any other scheme the remainder of the
input is kept opaque (enough to model the `protocol` check in
`scrapeUrl`). -/
structure Url where
  scheme : String
  host : String
  pathSegs : List String
  suffix : String
  rawPath : Option String := none
  deriving Repr, DecidableEq

/-- The `url.pathname` serialisation for a special-scheme URL. -/
def Url.pathname (u : Url) : String :=
  "/" ++ String.intercalate "/" u.pathSegs

/-- The `url.href` serialisation: the normalised URL string. -/
def Url.href (u : Url) : String :=
  match u.rawPath with
  | some o => u.scheme ++ ":" ++ o
  | none => u.scheme ++ "://" ++ u.host ++ u.pathname ++ u.suffix

/-- Characters allowed in a scheme after the initial letter. -/
def isSchemeChar (c : Char) : Bool :=
  c.isAlphanum || c = '+' || c = '-' || c = '.'

/-- Scans `scheme:` from the front of the input; fails when the input has
no scheme (which is exactly when `new URL(input)` throws for an input
without a base). -/
def schemeSplitGo (acc : List Char) : List Char → Option (List Char × List Char)
  | [] => none
  | c :: cs =>
    if c = ':' then some (acc.reverse, cs)
    else if isSchemeChar c then schemeSplitGo (c :: acc) cs
    else none

def schemeSplit : List Char → Option (List Char × List Char)
  | [] => none
  | c :: cs => if c.isAlpha then schemeSplitGo [c] cs else none

/-- WHATWG dot-segment removal (`.` and `..`), including the trailing
slash produced by a final dot segment. -/
def normSegsGo (acc : List String) : List String → List String
  | [] => acc.reverse
  | s :: rest =>
    if s = "." then
      if rest = [] then ("" :: acc).reverse else normSegsGo acc rest
    else if s = ".." then
      if rest = [] then ("" :: acc.tail).reverse else normSegsGo acc.tail rest
    else normSegsGo (s :: acc) rest

def normSegs (segs : List String) : List String := normSegsGo [] segs

/-- A character terminating the host of a special-scheme URL. -/
def urlDelim (c : Char) : Bool := c = '/' || c = '\\' || c = '?' || c = '#'

/-- A character the host parser rejects outright. -/
def badHostChar (c : Char) : Bool :=
  c = ' ' || c = '@' || c = '[' || c = ']' || c = '%' || c = '<' || c = '>'

/-- Splits path characters into `(segments, query-and-fragment)`. -/
def splitPathChars (cs : List Char) : List String × String :=
  let pathChars := cs.takeWhile (fun c => c ≠ '?' && c ≠ '#')
  let suffix := cs.dropWhile (fun c => c ≠ '?' && c ≠ '#')
  ((splitCharsBy (fun c => c = '/' || c = '\\') pathChars).map String.mk,
    String.mk suffix)

/-- Embedding of `new URL(s)`: `none` models the constructor throwing. -/
def urlParse (s : String) : Option Url :=
  match schemeSplit s.data with
  | none => none
  | some (sch, rest) =>
    let scheme := String.mk (sch.map Char.toLower)
    if scheme = "http" || scheme = "https" then
      let rest := rest.dropWhile (fun c => c = '/' || c = '\\')
      let hostChars := rest.takeWhile (fun c => !urlDelim c)
      let after := rest.dropWhile (fun c => !urlDelim c)
      if hostChars.isEmpty then none
      else if hostChars.any badHostChar then none
      else
        let host := String.mk (hostChars.map Char.toLower)
        match after with
        | [] => some { scheme := scheme, host := host, pathSegs := [], suffix := "" }
        | d :: ds =>
          if d = '?' || d = '#' then
            some { scheme := scheme, host := host, pathSegs := [],
                   suffix := String.mk after }
          else
            let (segs, suffix) := splitPathChars ds
            some { scheme := scheme, host := host, pathSegs := normSegs segs,
                   suffix := suffix }
    else
      some { scheme := scheme, host := "", pathSegs := [], suffix := "",
             rawPath := some (String.mk rest) }

/-- Embedding of `new URL(rel, base)`: `none` models the constructor
throwing.  An input that parses on its own is absolute and ignores the
base; otherwise protocol-relative, root-relative and plain relative
references are resolved against the (special-scheme) base. -/
def urlResolveU (rel : String) (base : String) : Option Url :=
  match urlParse rel with
  | some u => some u
  | none =>
    match urlParse base with
    | none => none
    | some b =>
      if b.rawPath.isSome then none
      else
        match rel.data with
        | [] => some b
        | c :: cs =>
          if (c = '/' || c = '\\') &&
              (match cs with | d :: _ => d = '/' || d = '\\' | [] => false) then
            urlParse (b.scheme ++ ":" ++ rel)
          else if c = '/' || c = '\\' then
            let (segs, suffix) := splitPathChars cs
            some { b with pathSegs := normSegs segs, suffix := suffix }
          else if c = '?' || c = '#' then
            some { b with suffix := rel }
          else
            let (segs, suffix) := splitPathChars (c :: cs)
            some { b with pathSegs := normSegs (b.pathSegs.dropLast ++ segs),
                          suffix := suffix }

/-- The `new URL(rel, base).href` serialisation. -/
def urlResolve (rel : String) (base : String) : Option String :=
  (urlResolveU rel base).map Url.href

/-! ## Data model -/

/-- Embeds `imgUrl.startsWith('http://') || imgUrl.startsWith('https://')` — the
absoluteness test used throughout `processScrapedData`. -/
def isAbsHttp (s : String) : Bool :=
  strStarts s "http://" || strStarts s "https://"

/-- A draft record as produced by the AI extractor (`extract-property-info`
schema): every field optional; candidate image entries may be non-string
values, modelled as `none`. -/
structure DraftRecord where
  title : Option String := none
  description : Option String := none
  original_title : Option String := none
  original_description : Option String := none
  page_link : Option String := none
  image_urls : Option (List (Option String)) := none
  propertyCountry : Option String := none
  propertyAgent : Option String := none
  deriving Repr, DecidableEq

/-- A finalized property record (the fields of `Property` that the
pipeline itself populates). -/
structure Property where
  id : String
  original_url : String
  original_title : String
  original_description : String
  title : String
  description : String
  scraped_at : String
  image_urls : List String
  image_url : String
  propertyCountry : String
  propertyAgent : String
  deriving Repr, DecidableEq

structure HistoryEntry where
  type : String
  details : String
  propertyCount : Nat
  deriving Repr, DecidableEq

structure BulkScrapeError where
  url : String
  error : String
  deriving Repr, DecidableEq

structure ScrapeBulkResult where
  properties : List Property
  errors : List BulkScrapeError
  deriving Repr, DecidableEq

/-! ## Image candidate resolution (`actions.ts` lines 60-88) -/

/-- Embeds `p.page_link && (p.page_link.startsWith('http://') || ...)`:
the page link is usable as a base iff it is a truthy absolute string. -/
def pageLinkUsable (pl : Option String) : Bool :=
  match pl with
  | some s => s ≠ "" && isAbsHttp s
  | none => false

/-- One candidate through the resolution step.  `none` models the
candidate being dropped (`return null`). -/
def resolveCandidate (imgUrl : Option String) (page_link : Option String)
    (originalUrl : String) : Option String :=
  match imgUrl with
  | none => none
  | some s =>
    if s = "" then none
    else if isAbsHttp s then (urlParse s).map Url.href
    else
      let base : Option String :=
        if pageLinkUsable page_link then page_link
        else if isAbsHttp originalUrl then some originalUrl
        else none
      match base with
      | some b => urlResolve s b
      | none => none

/-- The `absoluteImageUrls` list: map each candidate through resolution
and keep the non-null results (in discovery order). -/
def resolveCandidates (p : DraftRecord) (originalUrl : String) : List String :=
  match p.image_urls with
  | none => []
  | some cands => cands.filterMap (fun c => resolveCandidate c p.page_link originalUrl)

/-! ## Image fetch-and-persist (`actions.ts` lines 92-154) -/

/-- The observable outcome of the environment for one image fetch:
whether the fetch itself threw, the HTTP ok flag, the content-type
header, the payload length, and whether the filesystem writes succeed. -/
structure ImgOutcome where
  netErr : Bool := false
  ok : Bool := true
  contentType : Option String := none
  bodyLen : Nat := 1
  fsOk : Bool := true
  deriving Repr, DecidableEq

/-- The regex `/^[a-z0-9]+$/` applied after `toLowerCase`. -/
def extOk (e : String) : Bool :=
  e ≠ "" && e.data.all (fun c => c.isLower || c.isDigit)

/-- Extension from an `image/*` content-type (lines 112-118):
subtype before any `+`, lower-cased, `jpeg` → `jpg`, defaulting and
sanitising to `jpg`. -/
def extFromImageCT (ct : String) : String :=
  let sub :=
    match (splitStr '/' ct).get? 1 with
    | none => ""
    | some s => lowerStr ((splitStr '+' s).headD "")
  let e := if sub = "" then "jpg" else sub
  let e := if e = "jpeg" then "jpg" else e
  if extOk e then e else "jpg"

/-- Embeds `s.substring(s.lastIndexOf('.') + 1)` — when there is no dot the whole
string is returned. -/
def afterLastDot (s : String) : String :=
  let rev := s.data.reverse
  if rev.any (fun c => c = '.') then String.mk (rev.takeWhile (fun c => c ≠ '.')).reverse
  else s

/-- Extension guess from the URL path (lines 120-128), used when the
content-type is missing or not `image/*`.  `none` models the re-parse of
the stored URL throwing (impossible for URLs produced by resolution). -/
def extGuessFromUrl (imgUrl : String) : Option String :=
  (urlParse imgUrl).map (fun u =>
    let extFromUrl := afterLastDot u.pathname
    if extFromUrl ≠ "" && extOk extFromUrl && extFromUrl.length < 5 then extFromUrl
    else "jpg")

/-- Extension inference (lines 108-128): the `image/*` subtype when the
content-type is a present image type, the URL-path guess otherwise
(`none` models the re-parse throwing). -/
def fileExtensionFor (ct : Option String) (imgUrl : String) : Option String :=
  match ct with
  | some c => if strStarts c "image/" then some (extFromImageCT c)
              else extGuessFromUrl imgUrl
  | none => extGuessFromUrl imgUrl

/-- The body of the per-image `try` block: `some publicUrl` on success,
`none` when any step throws.  Mirrors the source order: status check,
extension inference, empty-payload check, directory/file writes. -/
def tryProcessImage (propertyId ts imgUrl : String) (imgIndex : Nat)
    (r : ImgOutcome) : Option String :=
  if r.netErr then none
  else if !r.ok then none
  else
    match fileExtensionFor r.contentType imgUrl with
    | none => none
    | some fileExtension =>
      if r.bodyLen = 0 then none
      else if !r.fsOk then none
      else some ("/uploads/properties/" ++ propertyId ++ "/" ++ ts ++ "_"
                  ++ Nat.repr imgIndex ++ "." ++ fileExtension)

/-- The whole per-image task including its `catch`: on any failure the
original resolved URL string is the outcome. -/
def processImage (propertyId ts imgUrl : String) (imgIndex : Nat)
    (r : ImgOutcome) : String :=
  (tryProcessImage propertyId ts imgUrl imgIndex r).getD imgUrl

/-! ## Fan-out / fan-in model for the per-image `Promise.all` -/

/-- Index-aware map with a running counter (structural, used to embed
`array.map((x, i) => ...)`). -/
def mapIdxGo (f : Nat → α → β) : Nat → List α → List β
  | _, [] => []
  | n, a :: as => f n a :: mapIdxGo f (n + 1) as

def mapIdxL (f : Nat → α → β) (l : List α) : List β := mapIdxGo f 0 l

/-- The per-image outcomes, one slot per resolved candidate. -/
def imageOutcomes (propertyId ts : String) (renv : Nat → ImgOutcome)
    (resolved : List String) : List String :=
  mapIdxL (fun i u => processImage propertyId ts u i (renv i)) resolved

/-- The event log of a concurrent run: tasks complete in the order given
by `σ`, each delivering its slot index together with its result. -/
def scheduleResults (results : List String) (σ : List Nat) : List (Nat × String) :=
  σ.map (fun i => (i, results.getD i ""))

/-- The `Promise.all` join: slot `i` of the output is the result delivered
for index `i`, regardless of the completion order of the log. -/
def joinByIndex (n : Nat) (completions : List (Nat × String)) : List String :=
  (List.range n).map (fun i =>
    ((completions.find? (fun c => c.1 == i)).map Prod.snd).getD "")

/-! ## Content enhancement -/

/-- Modelled from the spec: the `enhance-property-description` flow
(`enhancePropertyContent`) is not among the source files — only its
callers are.  Per §4.3, if the input title or description is empty the AI
call is skipped and the inputs pass through unchanged; otherwise the
service is called (`svc`, with `none` modelling a thrown failure) and on
failure the original pair passes through unchanged. -/
def enhancePropertyContent (svc : String → String → Option (String × String))
    (title description : String) : String × String :=
  if title = "" || description = "" then (title, description)
  else
    match svc title description with
    | some td => td
    | none => (title, description)

/-! ## Record assembly (`actions.ts` lines 57-204) -/

def placeholderImage : String := "https://placehold.co/600x400.png"

/-- One draft record through image materialisation, enhancement and
assembly.  `ts` stands for the `Date.now()` reads and `now` for
`new Date().toISOString()`. -/
def processRecord (p : DraftRecord) (originalUrl propertyId ts now : String)
    (renv : Nat → ImgOutcome)
    (svc : String → String → Option (String × String)) : Property :=
  let absoluteImageUrls := resolveCandidates p originalUrl
  let processedImageUrls :=
    (imageOutcomes propertyId ts renv absoluteImageUrls).filter (fun u => u != "")
  let finalImageUrls :=
    if processedImageUrls.length > 0 then processedImageUrls else [placeholderImage]
  let enhanced := enhancePropertyContent svc (jsOr p.title "") (jsOr p.description "")
  { id := propertyId
    original_url := originalUrl
    original_title := jsOr p.original_title (jsOr p.title "")
    original_description := jsOr p.original_description (jsOr p.description "")
    title := enhanced.1
    description := enhanced.2
    scraped_at := now
    image_urls := finalImageUrls
    image_url := finalImageUrls.headD ""
    propertyCountry := jsOr p.propertyCountry "UAE"
    propertyAgent := jsOr p.propertyAgent "ahmed" }

structure HistoryMeta where
  type : String
  details : String
  deriving Repr, DecidableEq

/-- Embeds `processScrapedData`: fan out over the drafts, then write exactly one
history entry carrying the produced record count.  The returned pair is
(records, history writes). -/
def processScrapedData (properties : List DraftRecord) (originalUrl : String)
    (hmeta : HistoryMeta) (ienv : Nat → Nat → ImgOutcome)
    (svc : String → String → Option (String × String)) (ts now : String) :
    List Property × List HistoryEntry :=
  let finalProperties := mapIdxL (fun index p =>
    processRecord p originalUrl ("prop-" ++ ts ++ "-" ++ Nat.repr index) ts now
      (ienv index) svc) properties
  (finalProperties,
    [{ type := hmeta.type, details := hmeta.details,
       propertyCount := finalProperties.length }])

/-! ## Job orchestration (`actions.ts` lines 24-52, 221-301) -/

/-- A page-fetch response as observed by `getHtml`; the `Except.error`
case of the environment models the transport throwing. -/
structure PageResp where
  ok : Bool
  status : Nat
  statusText : String
  body : String

structure ExtractOutput where
  properties : List DraftRecord

/-- The asynchronous environment of a run: HTTP responses, the AI model's
raw outputs (with `extractThrew` modelling a thrown extraction call),
the enhancement service, and the clock. -/
structure JobEnv where
  fetch : String → Except String PageResp
  extractRaw : String → Option ExtractOutput
  extractThrew : String → Bool
  ienv : String → Nat → Nat → ImgOutcome
  svc : String → String → Option (String × String)
  ts : String
  now : String

/-- Embeds `getHtml`: normalises transport failures into thrown messages;
non-2xx responses throw a `Failed to fetch URL ...` message, transport
errors a `Could not retrieve content ...` message. -/
def getHtml (fetch : String → Except String PageResp) (url : String) :
    Except String String :=
  match fetch url with
  | .error msg =>
    .error ("Could not retrieve content from " ++ url ++ ". Reason: " ++ msg)
  | .ok r =>
    if r.ok then .ok r.body
    else .error ("Failed to fetch URL " ++ url ++ ": HTTP " ++ Nat.repr r.status
                  ++ " " ++ r.statusText ++ ".")

/-- The extraction flow (`extract-property-info`): a thrown call or a null
model output both degrade to zero properties, so the result always carries
a (possibly empty) list — the `!result || !result.properties` guard in the
callers can never fire. -/
def extractPropertyInfo (env : JobEnv) (htmlContent : String) : ExtractOutput :=
  if env.extractThrew htmlContent then ⟨[]⟩
  else (env.extractRaw htmlContent).getD ⟨[]⟩

inductive ScrapeError where
  | validation (msg : String)
  | fetch (msg : String)
  deriving Repr, DecidableEq

/-- The `new URL(url)` + protocol check in `scrapeUrl` (lines 224-232):
the input must parse and have an http/https protocol. -/
def validHttpUrl (url : String) : Bool :=
  match urlParse url with
  | some u => u.scheme == "http" || u.scheme == "https"
  | none => false

/-- Embeds `scrapeUrl`: validation, fetch, extraction, processing.  Returns the
records together with the history writes. -/
def scrapeUrl (url : String) (env : JobEnv) :
    Except ScrapeError (List Property × List HistoryEntry) :=
  if !validHttpUrl url then
    .error (.validation ("Invalid URL provided: \"" ++ url
      ++ "\". Please ensure it is a valid HTTP or HTTPS URL."))
  else
    match getHtml env.fetch url with
    | .error msg => .error (.fetch msg)
    | .ok html =>
      let result := extractPropertyInfo env html
      .ok (processScrapedData result.properties url ⟨"URL", url⟩
        (env.ienv url) env.svc env.ts env.now)

/-- Embeds `scrapeHtml`: the origin URL defaults to the non-absolute marker
string.  `!html || html.length < 100` collapses to the length test. -/
def scrapeHtml (html : String) (env : JobEnv)
    (originalUrl : String := "scraped-from-html") :
    Except ScrapeError (List Property × List HistoryEntry) :=
  if html.length < 100 then .error (.validation "Invalid HTML provided.")
  else
    let result := extractPropertyInfo env html
    .ok (processScrapedData result.properties originalUrl
      ⟨"HTML", "Pasted HTML content"⟩ (env.ienv html) env.svc env.ts env.now)

/-! ## Bulk orchestration (`actions.ts` lines 260-301) -/

/-- The newline-split, trimmed, blank-filtered URL list. -/
def urlListOf (urls : String) : List String :=
  ((splitStr '\n' urls).map jsTrim).filter (fun u => u != "")

/-- The body of one bulk iteration's `try` block: fetch, extract, and
process when at least one draft was extracted. -/
def bulkStep (env : JobEnv) (url : String) :
    Except String (List Property × List HistoryEntry) :=
  match getHtml env.fetch url with
  | .error msg => .error msg
  | .ok html =>
    let result := extractPropertyInfo env html
    if result.properties.length > 0 then
      .ok (processScrapedData result.properties url
        ⟨"BULK", "Bulk operation included: " ++ url⟩ (env.ienv url) env.svc
        env.ts env.now)
    else .ok ([], [])

/-- The sequential bulk loop with its per-URL error capture, accumulating
records, error entries and history writes in iteration order. -/
def bulkLoop (env : JobEnv) :
    List String → List Property × List BulkScrapeError × List HistoryEntry
  | [] => ([], [], [])
  | url :: rest =>
    match bulkStep env url with
    | .error msg =>
      let (ps, es, hs) := bulkLoop env rest
      (ps, ⟨url, msg⟩ :: es, hs)
    | .ok (newPs, newHs) =>
      let (ps, es, hs) := bulkLoop env rest
      (newPs ++ ps, es, newHs ++ hs)

/-- Embeds `scrapeBulk`: throws only on an empty URL list; otherwise the loop's
accumulated records and errors are returned. -/
def scrapeBulk (urls : String) (env : JobEnv) : Except String ScrapeBulkResult :=
  let urlList := urlListOf urls
  if urlList.length = 0 then .error "No valid URLs found in bulk input."
  else
    let (ps, es, _) := bulkLoop env urlList
    .ok ⟨ps, es⟩

/-- The error entry a URL contributes when (and only when) its iteration
of the bulk loop throws. -/
def jobError (env : JobEnv) (url : String) : Option BulkScrapeError :=
  match bulkStep env url with
  | .error msg => some ⟨url, msg⟩
  | .ok _ => none

/-- The records a URL contributes to the accumulated bulk result. -/
def jobRecords (env : JobEnv) (url : String) : List Property :=
  match bulkStep env url with
  | .error _ => []
  | .ok (ps, _) => ps

/-- The history entries a URL's iteration writes. -/
def jobHistory (env : JobEnv) (url : String) : List HistoryEntry :=
  match bulkStep env url with
  | .error _ => []
  | .ok (_, hs) => hs

/-! ## Concrete fixtures (used by the witness theorems) -/

def sampleDraft : DraftRecord :=
  { title := some "Nice flat", description := some "Two rooms",
    page_link := some "https://x.com/listing/5",
    image_urls := some [some "imgs/a.jpg", some "https://cdn.x.com/b.png"] }

def relativeDraft : DraftRecord :=
  { title := some "Rel", description := some "Only relative candidates",
    page_link := some "/not-absolute",
    image_urls := some [some "imgs/a.jpg", some "b.png"] }

def okPage : PageResp := { ok := true, status := 200, statusText := "OK",
                           body := "<html>listing</html>" }

def sampleEnv : JobEnv :=
  { fetch := fun u => if u = "http://b.test" then Except.error "ECONNREFUSED"
                      else Except.ok okPage
    extractRaw := fun _ => some ⟨[sampleDraft]⟩
    extractThrew := fun _ => false
    ienv := fun _ _ _ => {}
    svc := fun t d => some (t ++ " (enhanced)", d ++ " (enhanced)")
    ts := "111"
    now := "2024-01-01T00:00:00.000Z" }

def emptyExtractEnv : JobEnv := { sampleEnv with extractRaw := fun _ => some ⟨[]⟩ }

def failingSvcEnv : JobEnv := { sampleEnv with svc := fun _ _ => none }

def relDraftEnv : JobEnv :=
  { sampleEnv with extractRaw := fun _ => some ⟨[relativeDraft]⟩ }

def longHtml : String := String.mk (List.replicate 120 'a')

def shortHtml : String := String.mk (List.replicate 50 'x')

/-! ## Supporting lemmas -/

theorem Url.href_ne_empty (u : Url) : u.href ≠ "" := by
  intro h
  have h2 := congrArg String.length h
  rw [Url.href] at h2
  have h0 : ("" : String).length = 0 := rfl
  cases ho : u.rawPath with
  | some o =>
    rw [ho] at h2
    rw [String.length_append, String.length_append, h0] at h2
    have h3 : (":" : String).length = 1 := rfl
    omega
  | none =>
    rw [ho] at h2
    rw [String.length_append, String.length_append, String.length_append,
        String.length_append, h0] at h2
    have h3 : ("://" : String).length = 3 := rfl
    omega

theorem urlResolve_href (rel base : String) {r : String}
    (h : urlResolve rel base = some r) : ∃ u : Url, r = u.href := by
  rw [urlResolve] at h
  rcases Option.map_eq_some'.mp h with ⟨u, _, hr⟩
  exact ⟨u, hr.symm⟩

theorem resolveCandidate_href {c pl : Option String} {o : String} {r : String}
    (h : resolveCandidate c pl o = some r) : ∃ u : Url, r = u.href := by
  unfold resolveCandidate at h
  cases c with
  | none => exact absurd h (by simp)
  | some s =>
    simp only at h
    split at h
    · exact absurd h (by simp)
    · split at h
      · rcases Option.map_eq_some'.mp h with ⟨u, _, hr⟩
        exact ⟨u, hr.symm⟩
      · split at h
        · exact urlResolve_href _ _ h
        · exact absurd h (by simp)

theorem resolveCandidate_ne_empty {c pl : Option String} {o : String} {r : String}
    (h : resolveCandidate c pl o = some r) : r ≠ "" := by
  rcases resolveCandidate_href h with ⟨u, rfl⟩
  exact u.href_ne_empty

theorem resolveCandidates_ne_empty (p : DraftRecord) (originalUrl : String) :
    ∀ r ∈ resolveCandidates p originalUrl, r ≠ "" := by
  intro r hr
  rw [resolveCandidates] at hr
  cases hc : p.image_urls with
  | none => rw [hc] at hr; simp at hr
  | some cands =>
    rw [hc] at hr
    rcases List.mem_filterMap.mp hr with ⟨c, _, hsome⟩
    exact resolveCandidate_ne_empty hsome

theorem tryProcessImage_some_shape {pid ts imgUrl : String} {i : Nat}
    {r : ImgOutcome} {s : String}
    (h : tryProcessImage pid ts imgUrl i r = some s) :
    ∃ rest, s = "/uploads/properties/" ++ rest := by
  rw [tryProcessImage] at h
  split at h
  · exact absurd h (by simp)
  · split at h
    · exact absurd h (by simp)
    · cases hext : fileExtensionFor r.contentType imgUrl with
      | none => rw [hext] at h; exact absurd h (by simp)
      | some e =>
        rw [hext] at h
        split at h
        · exact absurd h (by simp)
        · split at h
          · exact absurd h (by simp)
          · split at h
            · exact absurd h (by simp)
            · injection h with h
              exact ⟨_, h.symm⟩

theorem processImage_ne_empty (pid ts imgUrl : String) (i : Nat) (r : ImgOutcome)
    (h : imgUrl ≠ "") : processImage pid ts imgUrl i r ≠ "" := by
  rw [processImage]
  cases ht : tryProcessImage pid ts imgUrl i r with
  | none => simpa using h
  | some s =>
    rcases tryProcessImage_some_shape ht with ⟨rest, rfl⟩
    simp only [Option.getD_some]
    intro hcon
    have h2 := congrArg String.length hcon
    rw [String.length_append] at h2
    have h3 : ("/uploads/properties/" : String).length = 20 := rfl
    have h0 : ("" : String).length = 0 := rfl
    omega

/-! ### `mapIdxL` -/

theorem mapIdxGo_length (f : Nat → α → β) :
    ∀ (l : List α) (n : Nat), (mapIdxGo f n l).length = l.length := by
  intro l
  induction l with
  | nil => intro n; rfl
  | cons a as ih => intro n; simp [mapIdxGo, ih]

theorem mapIdxL_length (f : Nat → α → β) (l : List α) :
    (mapIdxL f l).length = l.length := mapIdxGo_length f l 0

theorem mapIdxGo_get? (f : Nat → α → β) :
    ∀ (l : List α) (n i : Nat),
      (mapIdxGo f n l).get? i = (l.get? i).map (f (n + i)) := by
  intro l
  induction l with
  | nil => intro n i; simp [mapIdxGo]
  | cons a as ih =>
    intro n i
    cases i with
    | zero => simp [mapIdxGo]
    | succ j =>
      simp only [mapIdxGo, List.get?]
      rw [ih (n + 1) j]
      have he : n + 1 + j = n + (j + 1) := by omega
      rw [he]

theorem mapIdxL_get? (f : Nat → α → β) (l : List α) (i : Nat) :
    (mapIdxL f l).get? i = (l.get? i).map (f i) := by
  rw [mapIdxL, mapIdxGo_get?, Nat.zero_add]

theorem mapIdxGo_mem (f : Nat → α → β) :
    ∀ (l : List α) (n : Nat) (b : β), b ∈ mapIdxGo f n l →
      ∃ m a, a ∈ l ∧ b = f m a := by
  intro l
  induction l with
  | nil => intro n b h; simp [mapIdxGo] at h
  | cons a as ih =>
    intro n b h
    rw [mapIdxGo] at h
    rcases List.mem_cons.mp h with h1 | h1
    · exact ⟨n, a, List.mem_cons_self _ _, h1⟩
    · rcases ih (n + 1) b h1 with ⟨m, a', ha', hb⟩
      exact ⟨m, a', List.mem_cons_of_mem _ ha', hb⟩

theorem imageOutcomes_ne_empty (pid ts : String) (renv : Nat → ImgOutcome)
    (resolved : List String) (hres : ∀ r ∈ resolved, r ≠ "") :
    ∀ b ∈ imageOutcomes pid ts renv resolved, b ≠ "" := by
  intro b hb
  rcases mapIdxGo_mem _ resolved 0 b hb with ⟨m, a, ha, rfl⟩
  exact processImage_ne_empty pid ts a m (renv m) (hres a ha)

theorem filter_truthy_eq_self {l : List String} (h : ∀ a ∈ l, a ≠ "") :
    l.filter (fun u => u != "") = l := by
  induction l with
  | nil => rfl
  | cons a as ih =>
    rw [List.filter_cons]
    have ha : (a != "") = true := bne_iff_ne.mpr (h a (List.mem_cons_self _ _))
    rw [if_pos ha, ih (fun x hx => h x (List.mem_cons_of_mem _ hx))]

/-! ### Scheduling (`Promise.all` order invariance) -/

theorem find?_scheduleResults (results : List String) (i : Nat) :
    ∀ σ : List Nat, i ∈ σ →
      (scheduleResults results σ).find? (fun c => c.1 == i)
        = some (i, results.getD i "") := by
  intro σ
  induction σ with
  | nil => intro h; simp at h
  | cons j σ' ih =>
    intro h
    rw [scheduleResults, List.map_cons]
    by_cases hj : j = i
    · subst hj
      rw [List.find?_cons_of_pos _ (by simp)]
    · rw [List.find?_cons_of_neg _ (by simp [hj])]
      exact ih (by rcases List.mem_cons.mp h with h1 | h1
                   · exact absurd h1.symm hj
                   · exact h1)

theorem range_map_getD (l : List String) :
    (List.range l.length).map (fun i => l.getD i "") = l := by
  induction l with
  | nil => simp
  | cons a as ih =>
    rw [List.length_cons, List.range_succ_eq_map, List.map_cons, List.map_map]
    have hcomp : List.map ((fun i => (a :: as).getD i "") ∘ Nat.succ)
        (List.range as.length) = List.map (fun i => as.getD i "") (List.range as.length) := by
      apply List.map_congr_left
      intro i _
      simp [Function.comp, List.getD_cons_succ]
    rw [hcomp, ih]
    rfl

theorem joinByIndex_scheduleResults (results : List String) (σ : List Nat)
    (hp : σ.Perm (List.range results.length)) :
    joinByIndex results.length (scheduleResults results σ) = results := by
  rw [joinByIndex]
  have hmem : ∀ i ∈ List.range results.length,
      (((scheduleResults results σ).find? (fun c => c.1 == i)).map Prod.snd).getD ""
        = results.getD i "" := by
    intro i hi
    rw [find?_scheduleResults results i σ (hp.mem_iff.mpr hi)]
    rfl
  rw [List.map_congr_left hmem, range_map_getD]

/-! ### Failure characterisation of the image step -/

theorem tryProcessImage_none_of_fail {pid ts imgUrl : String} {i : Nat}
    {r : ImgOutcome}
    (h : r.netErr = true ∨ r.ok = false ∨ r.bodyLen = 0 ∨ r.fsOk = false) :
    tryProcessImage pid ts imgUrl i r = none := by
  rw [tryProcessImage]
  by_cases hn : r.netErr = true
  · rw [if_pos hn]
  · rw [if_neg hn]
    by_cases hok : r.ok = false
    · rw [if_pos (by simp [hok])]
    · rw [if_neg (by simp at hok; simp [hok])]
      cases hext : fileExtensionFor r.contentType imgUrl with
      | none => rfl
      | some e =>
        simp only
        rcases h with h | h | h | h
        · exact absurd h hn
        · exact absurd h hok
        · rw [if_pos h]
        · by_cases hb : r.bodyLen = 0
          · rw [if_pos hb]
          · rw [if_neg hb, if_pos (by simp [h])]

/-! ### The record's final image list -/

/-- When at least one candidate survives resolution, the final image list
is exactly the slot-indexed outcome list: no filtering, no placeholder. -/
theorem processRecord_image_urls (p : DraftRecord)
    (originalUrl pid ts now : String) (renv : Nat → ImgOutcome)
    (svc : String → String → Option (String × String))
    (hne : resolveCandidates p originalUrl ≠ []) :
    (processRecord p originalUrl pid ts now renv svc).image_urls
      = imageOutcomes pid ts renv (resolveCandidates p originalUrl) := by
  rw [processRecord]
  simp only
  rw [filter_truthy_eq_self (imageOutcomes_ne_empty pid ts renv _
        (resolveCandidates_ne_empty p originalUrl))]
  rw [if_pos]
  have hlen := mapIdxL_length
    (fun i u => processImage pid ts u i (renv i)) (resolveCandidates p originalUrl)
  rw [imageOutcomes, hlen]
  exact List.length_pos.mpr hne

/-! ### Placeholder / head lemmas -/

theorem processRecord_image_urls_placeholder (p : DraftRecord)
    (originalUrl pid ts now : String) (renv : Nat → ImgOutcome)
    (svc : String → String → Option (String × String))
    (h : resolveCandidates p originalUrl = []) :
    (processRecord p originalUrl pid ts now renv svc).image_urls = [placeholderImage]
    ∧ (processRecord p originalUrl pid ts now renv svc).image_url = placeholderImage := by
  constructor
  · rw [processRecord, h]; rfl
  · rw [processRecord, h]; rfl

/-! ### `fileExtensionFor` totality on parseable URLs -/

theorem fileExtensionFor_isSome (ct : Option String) {imgUrl : String}
    (hp : (urlParse imgUrl).isSome = true) :
    (fileExtensionFor ct imgUrl).isSome = true := by
  have hguess : (extGuessFromUrl imgUrl).isSome = true := by
    rw [extGuessFromUrl]
    cases hu : urlParse imgUrl with
    | none => rw [hu] at hp; simp at hp
    | some u => rfl
  unfold fileExtensionFor
  cases ct with
  | none => exact hguess
  | some c =>
    by_cases hi : strStarts c "image/"
    · simp [hi]
    · simp [hi, hguess]

/-! ### Bulk loop characterisation -/

theorem bulkLoop_eq (env : JobEnv) :
    ∀ l : List String,
      bulkLoop env l
        = (l.flatMap (jobRecords env), l.filterMap (jobError env),
           l.flatMap (jobHistory env)) := by
  intro l
  induction l with
  | nil => rfl
  | cons u rest ih =>
    simp only [bulkLoop]
    cases hstep : bulkStep env u with
    | error msg =>
      simp only [ih, List.flatMap_cons, List.filterMap_cons, jobRecords, jobError,
        jobHistory, hstep, List.nil_append]
    | ok pr =>
      cases pr with
      | mk ps hs =>
        simp only [ih, List.flatMap_cons, List.filterMap_cons, jobRecords, jobError,
          jobHistory, hstep]

theorem jobRecords_eq_nil {env : JobEnv} {url : String}
    (h : jobError env url ≠ none) : jobRecords env url = [] := by
  rw [jobError] at h
  rw [jobRecords]
  cases hstep : bulkStep env url with
  | error msg => rfl
  | ok pr => rw [hstep] at h; simp at h

theorem filterMap_length_of_all_some {f : α → Option β} :
    ∀ {l : List α}, (∀ a ∈ l, (f a).isSome) → (l.filterMap f).length = l.length := by
  intro l
  induction l with
  | nil => intro _; rfl
  | cons a as ih =>
    intro h
    rw [List.filterMap_cons]
    cases hf : f a with
    | none =>
      have := h a (List.mem_cons_self _ _)
      rw [hf] at this
      simp at this
    | some b =>
      simp only [List.length_cons, ih (fun x hx => h x (List.mem_cons_of_mem _ hx))]

theorem bind_eq_nil_of_all_nil {f : α → List β} :
    ∀ {l : List α}, (∀ a ∈ l, f a = []) → l.flatMap f = [] := by
  intro l
  induction l with
  | nil => intro _; rfl
  | cons a as ih =>
    intro h
    rw [List.flatMap_cons, h a (List.mem_cons_self _ _),
      ih (fun x hx => h x (List.mem_cons_of_mem _ hx))]
    rfl

/-! ### Resolution under a non-absolute origin -/

theorem resolveCandidate_relative_dropped (pl : Option String) (c : String)
    (hpl : pageLinkUsable pl = false) (hc : isAbsHttp c = false) :
    resolveCandidate (some c) pl "scraped-from-html" = none := by
  rw [resolveCandidate]
  simp only
  by_cases hce : c = ""
  · rw [if_pos hce]
  · rw [if_neg hce, if_neg (by simp [hc])]
    have habs : isAbsHttp "scraped-from-html" = false := by decide
    simp [hpl, habs]

theorem resolveCandidates_all_relative (p : DraftRecord)
    (hpl : pageLinkUsable p.page_link = false)
    (hrel : ∀ s : String, some s ∈ p.image_urls.getD [] → isAbsHttp s = false) :
    resolveCandidates p "scraped-from-html" = [] := by
  rw [resolveCandidates]
  cases hc : p.image_urls with
  | none => rfl
  | some cands =>
    rw [List.filterMap_eq_nil_iff]
    intro c hcmem
    cases c with
    | none => rfl
    | some s =>
      have hs : isAbsHttp s = false := by
        apply hrel
        rw [hc]
        simpa using hcmem
      exact resolveCandidate_relative_dropped p.page_link s hpl hs

theorem bool_ne_true {b : Bool} (h : b = false) : ¬ b = true := by
  rw [h]
  exact Bool.false_ne_true

/-! ### Structural facts about the assembled record -/

theorem head?_headD {l : List String} (h : l ≠ []) : l.head? = some (l.headD "") := by
  cases l with
  | nil => exact absurd rfl h
  | cons a as => rfl

theorem processRecord_image_url_headD (p : DraftRecord)
    (originalUrl pid ts now : String) (renv : Nat → ImgOutcome)
    (svc : String → String → Option (String × String)) :
    (processRecord p originalUrl pid ts now renv svc).image_url
      = (processRecord p originalUrl pid ts now renv svc).image_urls.headD "" := rfl

theorem processRecord_image_urls_ne_nil (p : DraftRecord)
    (originalUrl pid ts now : String) (renv : Nat → ImgOutcome)
    (svc : String → String → Option (String × String)) :
    (processRecord p originalUrl pid ts now renv svc).image_urls ≠ [] := by
  by_cases hres : resolveCandidates p originalUrl = []
  · rw [(processRecord_image_urls_placeholder p originalUrl pid ts now renv svc hres).1]
    simp
  · rw [processRecord_image_urls p originalUrl pid ts now renv svc hres]
    intro hnil
    have hlen := mapIdxL_length
      (fun i u => processImage pid ts u i (renv i)) (resolveCandidates p originalUrl)
    rw [imageOutcomes] at hnil
    rw [hnil] at hlen
    exact hres (List.length_eq_zero.mp hlen.symm)

theorem processRecord_title_eq (p : DraftRecord) (originalUrl pid ts now : String)
    (renv : Nat → ImgOutcome) (svc : String → String → Option (String × String)) :
    (processRecord p originalUrl pid ts now renv svc).title
      = (enhancePropertyContent svc (jsOr p.title "") (jsOr p.description "")).1 := rfl

theorem processRecord_description_eq (p : DraftRecord) (originalUrl pid ts now : String)
    (renv : Nat → ImgOutcome) (svc : String → String → Option (String × String)) :
    (processRecord p originalUrl pid ts now renv svc).description
      = (enhancePropertyContent svc (jsOr p.title "") (jsOr p.description "")).2 := rfl

theorem enhancePropertyContent_skip (svc : String → String → Option (String × String))
    {t d : String} (h : t = "" ∨ d = "") : enhancePropertyContent svc t d = (t, d) := by
  rw [enhancePropertyContent, if_pos]
  rcases h with h | h <;> simp [h]

theorem enhancePropertyContent_fail (svc : String → String → Option (String × String))
    (t d : String) (h : ∀ a b, svc a b = none) :
    enhancePropertyContent svc t d = (t, d) := by
  rw [enhancePropertyContent]
  split
  · rfl
  · rw [h t d]

theorem processScrapedData_get? (L : List DraftRecord) (originalUrl : String)
    (hmeta : HistoryMeta) (ienv : Nat → Nat → ImgOutcome)
    (svc : String → String → Option (String × String)) (ts now : String)
    (k : Nat) (p : DraftRecord) (hk : L.get? k = some p) :
    (processScrapedData L originalUrl hmeta ienv svc ts now).1.get? k
      = some (processRecord p originalUrl ("prop-" ++ ts ++ "-" ++ Nat.repr k)
          ts now (ienv k) svc) := by
  have h1 : (processScrapedData L originalUrl hmeta ienv svc ts now).1
      = mapIdxL (fun index q =>
          processRecord q originalUrl ("prop-" ++ ts ++ "-" ++ Nat.repr index)
            ts now (ienv index) svc) L := rfl
  rw [h1, mapIdxL_get?, hk]
  rfl

/-! ## Claim theorems -/

/-- C2: for every finalized record — any input draft, any origin, any
pattern of per-image outcomes, any enhancement service — `image_urls` has
length at least 1, `image_url` is its first entry, and when zero
candidates survive resolution the list is exactly the single sentinel
placeholder reference. -/
theorem claim_images_never_empty (p : DraftRecord) (originalUrl pid ts now : String)
    (renv : Nat → ImgOutcome) (svc : String → String → Option (String × String)) :
    1 ≤ (processRecord p originalUrl pid ts now renv svc).image_urls.length
    ∧ (processRecord p originalUrl pid ts now renv svc).image_urls.head?
        = some (processRecord p originalUrl pid ts now renv svc).image_url
    ∧ (resolveCandidates p originalUrl = [] →
        (processRecord p originalUrl pid ts now renv svc).image_urls
          = [placeholderImage]) := by
  have hne := processRecord_image_urls_ne_nil p originalUrl pid ts now renv svc
  refine ⟨?_, ?_, ?_⟩
  · exact List.length_pos.mpr hne
  · rw [processRecord_image_url_headD]
    exact head?_headD hne
  · intro h
    exact (processRecord_image_urls_placeholder p originalUrl pid ts now renv svc h).1

theorem claim_images_never_empty_witness :
    1 ≤ (processRecord relativeDraft "scraped-from-html" "p0" "111" "now"
          (fun _ => {}) (fun _ _ => none)).image_urls.length
    ∧ (processRecord relativeDraft "scraped-from-html" "p0" "111" "now"
          (fun _ => {}) (fun _ _ => none)).image_urls.head?
        = some (processRecord relativeDraft "scraped-from-html" "p0" "111" "now"
          (fun _ => {}) (fun _ _ => none)).image_url
    ∧ (resolveCandidates relativeDraft "scraped-from-html" = [] →
        (processRecord relativeDraft "scraped-from-html" "p0" "111" "now"
          (fun _ => {}) (fun _ _ => none)).image_urls = [placeholderImage]) :=
  claim_images_never_empty relativeDraft "scraped-from-html" "p0" "111" "now"
    (fun _ => {}) (fun _ _ => none)

/-- C3: when the fetch-and-persist step for the candidate in slot `i`
fails (network throw, non-2xx status, empty payload, or storage failure),
the record's image list carries the original resolved URL string in slot
`i` — the failure is absorbed, the record is still assembled. -/
theorem claim_image_failure_fallback (p : DraftRecord) (originalUrl pid ts now : String)
    (renv : Nat → ImgOutcome) (svc : String → String → Option (String × String))
    (i : Nat) (u : String)
    (hi : (resolveCandidates p originalUrl).get? i = some u)
    (hfail : (renv i).netErr = true ∨ (renv i).ok = false ∨ (renv i).bodyLen = 0
              ∨ (renv i).fsOk = false) :
    (processRecord p originalUrl pid ts now renv svc).image_urls.get? i = some u := by
  have hne : resolveCandidates p originalUrl ≠ [] := by
    intro hnil
    rw [hnil] at hi
    simp at hi
  rw [processRecord_image_urls p originalUrl pid ts now renv svc hne, imageOutcomes,
    mapIdxL_get?, hi, Option.map_some']
  rw [processImage, tryProcessImage_none_of_fail hfail, Option.getD_none]

theorem claim_image_failure_fallback_witness :
    (processRecord sampleDraft "http://a.test" "p0" "111" "now"
        (fun _ => { ok := false }) (fun _ _ => none)).image_urls.get? 0
      = some "https://x.com/listing/imgs/a.jpg" :=
  claim_image_failure_fallback sampleDraft "http://a.test" "p0" "111" "now"
    (fun _ => { ok := false }) (fun _ _ => none) 0 "https://x.com/listing/imgs/a.jpg"
    (by rfl) (Or.inr (Or.inl rfl))

/-- C4: for a record with a non-empty resolved candidate list, the
`Promise.all` join reassembles the per-image outcomes by slot index, so
for every completion order `σ` of the concurrent fetches the joined list
equals the in-order outcome list, and entry `i` of the final `image_urls`
is the outcome of candidate `i`. -/
theorem claim_image_order_invariance (p : DraftRecord) (originalUrl pid ts now : String)
    (renv : Nat → ImgOutcome) (svc : String → String → Option (String × String))
    (σ : List Nat)
    (hσ : σ.Perm (List.range (resolveCandidates p originalUrl).length))
    (hne : resolveCandidates p originalUrl ≠ []) :
    joinByIndex (resolveCandidates p originalUrl).length
        (scheduleResults (imageOutcomes pid ts renv (resolveCandidates p originalUrl)) σ)
      = imageOutcomes pid ts renv (resolveCandidates p originalUrl)
    ∧ ∀ i u, (resolveCandidates p originalUrl).get? i = some u →
        (processRecord p originalUrl pid ts now renv svc).image_urls.get? i
          = some (processImage pid ts u i (renv i)) := by
  constructor
  · have hlen : (imageOutcomes pid ts renv (resolveCandidates p originalUrl)).length
        = (resolveCandidates p originalUrl).length := mapIdxL_length _ _
    have hj := joinByIndex_scheduleResults
      (imageOutcomes pid ts renv (resolveCandidates p originalUrl))
      σ (by rw [hlen]; exact hσ)
    rw [hlen] at hj
    exact hj
  · intro i u hi
    rw [processRecord_image_urls p originalUrl pid ts now renv svc hne, imageOutcomes,
      mapIdxL_get?, hi, Option.map_some']

theorem claim_image_order_invariance_witness :
    ([1, 0] : List Nat).Perm (List.range (resolveCandidates sampleDraft "http://a.test").length)
    ∧ resolveCandidates sampleDraft "http://a.test" ≠ []
    ∧ (joinByIndex (resolveCandidates sampleDraft "http://a.test").length
          (scheduleResults (imageOutcomes "p0" "111" (fun _ => {})
            (resolveCandidates sampleDraft "http://a.test")) [1, 0])
        = imageOutcomes "p0" "111" (fun _ => {})
            (resolveCandidates sampleDraft "http://a.test")
      ∧ ∀ i u, (resolveCandidates sampleDraft "http://a.test").get? i = some u →
          (processRecord sampleDraft "http://a.test" "p0" "111" "now" (fun _ => {})
            (fun _ _ => none)).image_urls.get? i
            = some (processImage "p0" "111" u i {})) :=
  ⟨by decide, by decide,
    claim_image_order_invariance sampleDraft "http://a.test" "p0" "111" "now"
      (fun _ => {}) (fun _ _ => none) [1, 0] (by decide) (by decide)⟩

/-- C5 (counterexample): an absolute-prefixed candidate is not used
as-is — the code returns `new URL(imgUrl).href`, which canonicalises the
string.  `https://x.com` becomes `https://x.com/`. -/
theorem claim_resolution_as_is_counterexample :
    resolveCandidate (some "https://x.com") none "https://base.example/x"
        = some "https://x.com/"
    ∧ (some ("https://x.com/" : String)) ≠ (some ("https://x.com" : String)) :=
  ⟨rfl, by decide⟩

/-- C5 (amended): empty or non-string candidates are skipped; an
http(s)-prefixed candidate is passed through the URL parser and its
normalised serialisation (`href`) is used, the candidate being dropped if
it fails to parse; otherwise it resolves against the page link when that
is a truthy absolute string, else against the origin URL when absolute
(e.g. `imgs/a.jpg` against `https://x.com/listing/5` gives
`https://x.com/listing/imgs/a.jpg`); with neither base absolute, or a
malformed resolution, the candidate is dropped rather than failing the
record. -/
theorem claim_resolution_amended (c : String) (pl : Option String) (origin : String) :
    resolveCandidate none pl origin = none
    ∧ resolveCandidate (some "") pl origin = none
    ∧ (isAbsHttp c = true →
        resolveCandidate (some c) pl origin = (urlParse c).map Url.href)
    ∧ (c ≠ "" → isAbsHttp c = false → pageLinkUsable pl = true →
        resolveCandidate (some c) pl origin = urlResolve c (pl.getD ""))
    ∧ (c ≠ "" → isAbsHttp c = false → pageLinkUsable pl = false →
        isAbsHttp origin = true →
        resolveCandidate (some c) pl origin = urlResolve c origin)
    ∧ (c ≠ "" → isAbsHttp c = false → pageLinkUsable pl = false →
        isAbsHttp origin = false →
        resolveCandidate (some c) pl origin = none)
    ∧ resolveCandidate (some "imgs/a.jpg") (some "https://x.com/listing/5")
        "scraped-from-html" = some "https://x.com/listing/imgs/a.jpg" := by
  refine ⟨rfl, rfl, ?_, ?_, ?_, ?_, rfl⟩
  · intro habs
    have hcne : ¬ c = "" := by
      intro hce
      rw [hce] at habs
      exact absurd habs (by decide)
    rw [resolveCandidate]
    simp only [if_neg hcne, if_pos habs]
  · intro hcne habs hpl
    cases pl with
    | none => exact absurd hpl (by simp [pageLinkUsable])
    | some b =>
      rw [resolveCandidate]
      simp only [if_neg hcne]
      rw [if_neg (bool_ne_true habs), if_pos hpl]
      rfl
  · intro hcne habs hpl horig
    rw [resolveCandidate]
    simp only [if_neg hcne]
    rw [if_neg (bool_ne_true habs), if_neg (bool_ne_true hpl), if_pos horig]
  · intro hcne habs hpl horig
    rw [resolveCandidate]
    simp only [if_neg hcne]
    rw [if_neg (bool_ne_true habs), if_neg (bool_ne_true hpl),
      if_neg (bool_ne_true horig)]

theorem claim_resolution_amended_witness :
    ("imgs/a.jpg" : String) ≠ ""
    ∧ isAbsHttp "imgs/a.jpg" = false
    ∧ pageLinkUsable (some "https://x.com/listing/5") = true
    ∧ resolveCandidate (some "imgs/a.jpg") (some "https://x.com/listing/5")
        "scraped-from-html"
      = urlResolve "imgs/a.jpg" ((some "https://x.com/listing/5").getD "") :=
  ⟨by decide, by decide, by decide,
    (claim_resolution_amended "imgs/a.jpg" (some "https://x.com/listing/5")
      "scraped-from-html").2.2.2.1 (by decide) (by decide) (by decide)⟩

/-- C6 (counterexample): a present non-image content-type does not
fail the fetch-and-persist step — with a 2xx response, `text/html`
content-type and a non-empty payload the step succeeds and stores the
image under a URL-guessed extension, instead of degrading to the original
URL as the claim requires. -/
theorem claim_contentType_reject_counterexample :
    tryProcessImage "p1" "111" "https://x.com/a.png" 0
        ⟨false, true, some "text/html", 5, true⟩
      = some "/uploads/properties/p1/111_0.png"
    ∧ processImage "p1" "111" "https://x.com/a.png" 0
        ⟨false, true, some "text/html", 5, true⟩
      ≠ "https://x.com/a.png" := by
  refine ⟨rfl, ?_⟩
  have h : processImage "p1" "111" "https://x.com/a.png" 0
      ⟨false, true, some "text/html", 5, true⟩
        = "/uploads/properties/p1/111_0.png" := rfl
  rw [h]
  decide

/-- C6 (amended): for a candidate URL that re-parses (true of every
URL the resolution step produces), the fetch-and-persist step fails
exactly when the fetch throws, the response is non-2xx, the payload is
empty, or the storage write fails; the content-type — missing, image, or
non-image — never triggers failure and only routes extension inference. -/
theorem claim_image_step_fail_iff (pid ts imgUrl : String) (i : Nat) (r : ImgOutcome)
    (hp : (urlParse imgUrl).isSome = true) :
    tryProcessImage pid ts imgUrl i r = none
      ↔ (r.netErr = true ∨ r.ok = false ∨ r.bodyLen = 0 ∨ r.fsOk = false) := by
  constructor
  · intro h
    by_contra hdis
    push_neg at hdis
    obtain ⟨h1, h2, h3, h4⟩ := hdis
    have hn : r.netErr = false := by
      cases hne : r.netErr
      · rfl
      · exact absurd hne h1
    have hok : r.ok = true := by
      cases hoke : r.ok
      · exact absurd hoke h2
      · rfl
    have hfs : r.fsOk = true := by
      cases hfse : r.fsOk
      · exact absurd hfse h4
      · rfl
    have hsome : (tryProcessImage pid ts imgUrl i r).isSome = true := by
      rw [tryProcessImage, if_neg (bool_ne_true hn),
        if_neg (by rw [hok]; simp)]
      cases hext : fileExtensionFor r.contentType imgUrl with
      | none =>
        have hs := fileExtensionFor_isSome r.contentType hp
        rw [hext] at hs
        exact absurd hs (by simp)
      | some e =>
        show (if r.bodyLen = 0 then none
              else if (!r.fsOk) = true then none
              else some ("/uploads/properties/" ++ pid ++ "/" ++ ts ++ "_"
                ++ Nat.repr i ++ "." ++ e)).isSome = true
        rw [if_neg h3, hfs]
        simp
    rw [h] at hsome
    simp at hsome
  · exact tryProcessImage_none_of_fail

theorem claim_image_step_fail_iff_witness :
    ((urlParse "https://x.com/a.png").isSome = true)
    ∧ (tryProcessImage "p1" "111" "https://x.com/a.png" 0
          ({ ok := false } : ImgOutcome) = none
        ↔ (({ ok := false } : ImgOutcome).netErr = true
            ∨ ({ ok := false } : ImgOutcome).ok = false
            ∨ ({ ok := false } : ImgOutcome).bodyLen = 0
            ∨ ({ ok := false } : ImgOutcome).fsOk = false)) :=
  ⟨rfl, claim_image_step_fail_iff "p1" "111" "https://x.com/a.png" 0
    ({ ok := false } : ImgOutcome) rfl⟩

/-- C7: if the (defaulted) draft title or description is empty the
enhancement is skipped and the finalized record keeps the defaulted
inputs; and whenever the enhancement service throws, the original title
and description pass through unchanged. -/
theorem claim_enhancement_passthrough (p : DraftRecord) (originalUrl pid ts now : String)
    (renv : Nat → ImgOutcome) (svc : String → String → Option (String × String)) :
    ((jsOr p.title "" = "" ∨ jsOr p.description "" = "") →
      (processRecord p originalUrl pid ts now renv svc).title = jsOr p.title ""
      ∧ (processRecord p originalUrl pid ts now renv svc).description
          = jsOr p.description "")
    ∧ ((∀ t d, svc t d = none) →
      (processRecord p originalUrl pid ts now renv svc).title = jsOr p.title ""
      ∧ (processRecord p originalUrl pid ts now renv svc).description
          = jsOr p.description "") := by
  constructor
  · intro h
    have he := enhancePropertyContent_skip svc h
    constructor
    · rw [processRecord_title_eq, he]
    · rw [processRecord_description_eq, he]
  · intro h
    have he := enhancePropertyContent_fail svc
      (jsOr p.title "") (jsOr p.description "") h
    constructor
    · rw [processRecord_title_eq, he]
    · rw [processRecord_description_eq, he]

theorem claim_enhancement_passthrough_witness :
    (processRecord sampleDraft "http://a.test" "p0" "111" "now" (fun _ => {})
        (fun _ _ => none)).title = jsOr sampleDraft.title ""
    ∧ (processRecord sampleDraft "http://a.test" "p0" "111" "now" (fun _ => {})
        (fun _ _ => none)).description = jsOr sampleDraft.description "" :=
  (claim_enhancement_passthrough sampleDraft "http://a.test" "p0" "111" "now"
    (fun _ => {}) (fun _ _ => none)).2 (fun _ _ => rfl)

/-- C9: an input that is not a syntactically valid absolute URL with
http/https protocol makes `scrapeUrl` raise the validation error for every
environment (hence before any fetch can matter); an HTML input shorter
than 100 characters makes `scrapeHtml` raise the validation error for
every environment (hence before any extraction call). -/
theorem claim_validation_preconditions (url html : String) :
    (validHttpUrl url = false →
      ∀ env : JobEnv, scrapeUrl url env
        = .error (.validation ("Invalid URL provided: \"" ++ url
            ++ "\". Please ensure it is a valid HTTP or HTTPS URL.")))
    ∧ (html.length < 100 →
      ∀ env : JobEnv, scrapeHtml html env
        = .error (.validation "Invalid HTML provided.")) := by
  constructor
  · intro h env
    rw [scrapeUrl, if_pos (by rw [h]; rfl)]
  · intro h env
    rw [scrapeHtml, if_pos h]

theorem claim_validation_preconditions_witness :
    validHttpUrl "notaurl" = false
    ∧ shortHtml.length < 100
    ∧ scrapeUrl "notaurl" sampleEnv
        = .error (.validation ("Invalid URL provided: \"notaurl\". Please ensure it is a valid HTTP or HTTPS URL."))
    ∧ scrapeHtml shortHtml sampleEnv = .error (.validation "Invalid HTML provided.") :=
  ⟨rfl, by decide,
    (claim_validation_preconditions "notaurl" shortHtml).1 rfl sampleEnv,
    (claim_validation_preconditions "notaurl" shortHtml).2 (by decide) sampleEnv⟩

/-- C8: a URL job that validates and fetches successfully, and an HTML
job that passes the length check, each write exactly one history entry
whose `propertyCount` equals the number of finalized records; when the
extractor yields zero records the job still succeeds with the empty list
and the entry records count 0. -/
theorem claim_history_once_per_job (url html body : String) (env : JobEnv)
    (hv : validHttpUrl url = true)
    (hf : getHtml env.fetch url = .ok body)
    (hh : ¬ html.length < 100) :
    (∃ records entry, scrapeUrl url env = .ok (records, [entry])
      ∧ entry.propertyCount = records.length
      ∧ entry.type = "URL" ∧ entry.details = url
      ∧ ((extractPropertyInfo env body).properties = [] →
          records = [] ∧ entry.propertyCount = 0))
    ∧ (∃ records entry, scrapeHtml html env = .ok (records, [entry])
      ∧ entry.propertyCount = records.length
      ∧ ((extractPropertyInfo env html).properties = [] →
          records = [] ∧ entry.propertyCount = 0)) := by
  constructor
  · have hred : scrapeUrl url env
        = .ok (processScrapedData (extractPropertyInfo env body).properties url
            ⟨"URL", url⟩ (env.ienv url) env.svc env.ts env.now) := by
      rw [scrapeUrl, if_neg (by rw [hv]; simp), hf]
    refine ⟨(processScrapedData (extractPropertyInfo env body).properties url
        ⟨"URL", url⟩ (env.ienv url) env.svc env.ts env.now).1,
      ⟨"URL", url, (processScrapedData (extractPropertyInfo env body).properties url
        ⟨"URL", url⟩ (env.ienv url) env.svc env.ts env.now).1.length⟩,
      ?_, rfl, rfl, rfl, ?_⟩
    · rw [hred]
      rfl
    · intro h0
      constructor
      · rw [h0]
        rfl
      · rw [h0]
        rfl
  · have hred : scrapeHtml html env
        = .ok (processScrapedData (extractPropertyInfo env html).properties
            "scraped-from-html" ⟨"HTML", "Pasted HTML content"⟩ (env.ienv html)
            env.svc env.ts env.now) := by
      rw [scrapeHtml, if_neg hh]
    refine ⟨(processScrapedData (extractPropertyInfo env html).properties
        "scraped-from-html" ⟨"HTML", "Pasted HTML content"⟩ (env.ienv html)
        env.svc env.ts env.now).1,
      ⟨"HTML", "Pasted HTML content",
        (processScrapedData (extractPropertyInfo env html).properties
          "scraped-from-html" ⟨"HTML", "Pasted HTML content"⟩ (env.ienv html)
          env.svc env.ts env.now).1.length⟩,
      ?_, rfl, ?_⟩
    · rw [hred]
      rfl
    · intro h0
      constructor
      · rw [h0]
        rfl
      · rw [h0]
        rfl

theorem claim_history_once_per_job_witness :
    validHttpUrl "http://a.test" = true
    ∧ getHtml emptyExtractEnv.fetch "http://a.test" = .ok "<html>listing</html>"
    ∧ ¬ longHtml.length < 100
    ∧ ((∃ records entry, scrapeUrl "http://a.test" emptyExtractEnv
          = .ok (records, [entry])
        ∧ entry.propertyCount = records.length
        ∧ entry.type = "URL" ∧ entry.details = "http://a.test"
        ∧ ((extractPropertyInfo emptyExtractEnv "<html>listing</html>").properties = [] →
            records = [] ∧ entry.propertyCount = 0))
      ∧ (∃ records entry, scrapeHtml longHtml emptyExtractEnv = .ok (records, [entry])
        ∧ entry.propertyCount = records.length
        ∧ ((extractPropertyInfo emptyExtractEnv longHtml).properties = [] →
            records = [] ∧ entry.propertyCount = 0))) :=
  ⟨rfl, rfl, by decide,
    claim_history_once_per_job "http://a.test" longHtml "<html>listing</html>"
      emptyExtractEnv rfl rfl (by decide)⟩

/-- C10: `scrapeHtml` without an origin argument uses the non-absolute
marker `scraped-from-html`; for a draft whose page link is not a truthy
absolute http(s) string, every candidate that is not http(s)-prefixed is
dropped at resolution, and a draft with only such candidates yields a
record whose image list is exactly the sentinel placeholder. -/
theorem claim_html_default_origin (html : String) (env : JobEnv) (k : Nat)
    (p : DraftRecord)
    (hh : ¬ html.length < 100)
    (hk : (extractPropertyInfo env html).properties.get? k = some p)
    (hpl : pageLinkUsable p.page_link = false) :
    (∀ c : String, isAbsHttp c = false →
        resolveCandidate (some c) p.page_link "scraped-from-html" = none)
    ∧ ((∀ s : String, some s ∈ p.image_urls.getD [] → isAbsHttp s = false) →
        ∃ records hist rec, scrapeHtml html env = .ok (records, hist)
          ∧ records.get? k = some rec
          ∧ rec.image_urls = [placeholderImage]
          ∧ rec.image_url = placeholderImage) := by
  constructor
  · intro c hc
    exact resolveCandidate_relative_dropped p.page_link c hpl hc
  · intro hrel
    have hres := resolveCandidates_all_relative p hpl hrel
    refine ⟨(processScrapedData (extractPropertyInfo env html).properties
        "scraped-from-html" ⟨"HTML", "Pasted HTML content"⟩ (env.ienv html)
        env.svc env.ts env.now).1,
      (processScrapedData (extractPropertyInfo env html).properties
        "scraped-from-html" ⟨"HTML", "Pasted HTML content"⟩ (env.ienv html)
        env.svc env.ts env.now).2,
      processRecord p "scraped-from-html" ("prop-" ++ env.ts ++ "-" ++ Nat.repr k)
        env.ts env.now (env.ienv html k) env.svc, ?_, ?_, ?_, ?_⟩
    · rw [scrapeHtml, if_neg hh]
    · exact processScrapedData_get? _ _ _ _ _ _ _ k p hk
    · exact (processRecord_image_urls_placeholder p "scraped-from-html" _ _ _ _ _ hres).1
    · exact (processRecord_image_urls_placeholder p "scraped-from-html" _ _ _ _ _ hres).2

theorem claim_html_default_origin_witness :
    ¬ longHtml.length < 100
    ∧ (extractPropertyInfo relDraftEnv longHtml).properties.get? 0
        = some relativeDraft
    ∧ pageLinkUsable relativeDraft.page_link = false
    ∧ ((∀ c : String, isAbsHttp c = false →
          resolveCandidate (some c) relativeDraft.page_link "scraped-from-html" = none)
      ∧ ((∀ s : String, some s ∈ relativeDraft.image_urls.getD [] → isAbsHttp s = false) →
          ∃ records hist rec, scrapeHtml longHtml relDraftEnv = .ok (records, hist)
            ∧ records.get? 0 = some rec
            ∧ rec.image_urls = [placeholderImage]
            ∧ rec.image_url = placeholderImage)) :=
  ⟨by decide, rfl, by decide,
    claim_html_default_origin longHtml relDraftEnv 0 relativeDraft
      (by decide) rfl (by decide)⟩

/-- C1: with at least one non-blank URL, `scrapeBulk` never throws:
the result's error list carries exactly one `{url, errorMessage}` entry
per failing URL occurrence (in order), the records of all successful URLs
are accumulated in order, and an all-failures run returns an empty record
list with an error entry for every URL. -/
theorem claim_bulk_isolation (urls : String) (env : JobEnv)
    (h : urlListOf urls ≠ []) :
    scrapeBulk urls env
      = .ok ⟨(urlListOf urls).flatMap (jobRecords env),
             (urlListOf urls).filterMap (jobError env)⟩
    ∧ (∀ u e, jobError env u = some e → e.url = u)
    ∧ ((∀ u ∈ urlListOf urls, jobError env u ≠ none) →
        (urlListOf urls).flatMap (jobRecords env) = []
        ∧ ((urlListOf urls).filterMap (jobError env)).length
            = (urlListOf urls).length) := by
  refine ⟨?_, ?_, ?_⟩
  · simp only [scrapeBulk]
    rw [if_neg (fun h0 => h (List.length_eq_zero.mp h0)), bulkLoop_eq]
  · intro u e he
    rw [jobError] at he
    cases hstep : bulkStep env u with
    | error msg =>
      rw [hstep] at he
      injection he with he
      rw [← he]
    | ok pr =>
      rw [hstep] at he
      simp at he
  · intro hall
    constructor
    · exact bind_eq_nil_of_all_nil (fun u hu => jobRecords_eq_nil (hall u hu))
    · exact filterMap_length_of_all_some
        (fun u hu => Option.ne_none_iff_isSome.mp (hall u hu))

theorem claim_bulk_isolation_witness :
    urlListOf "http://a.test\nhttp://b.test\nhttp://c.test" ≠ []
    ∧ (scrapeBulk "http://a.test\nhttp://b.test\nhttp://c.test" sampleEnv
        = .ok ⟨(urlListOf "http://a.test\nhttp://b.test\nhttp://c.test").flatMap
                  (jobRecords sampleEnv),
               (urlListOf "http://a.test\nhttp://b.test\nhttp://c.test").filterMap
                  (jobError sampleEnv)⟩
      ∧ (∀ u e, jobError sampleEnv u = some e → e.url = u)
      ∧ ((∀ u ∈ urlListOf "http://a.test\nhttp://b.test\nhttp://c.test",
            jobError sampleEnv u ≠ none) →
          (urlListOf "http://a.test\nhttp://b.test\nhttp://c.test").flatMap
              (jobRecords sampleEnv) = []
          ∧ ((urlListOf "http://a.test\nhttp://b.test\nhttp://c.test").filterMap
              (jobError sampleEnv)).length
              = (urlListOf "http://a.test\nhttp://b.test\nhttp://c.test").length)) :=
  ⟨by decide,
    claim_bulk_isolation "http://a.test\nhttp://b.test\nhttp://c.test" sampleEnv
      (by decide)⟩

end ScrapperPro
